import Mathlib

/-!
Formal model of the merge-train scheduler of the mergify-engine repository,
together with the context-layer attribute lookup and the repository
permission check of `mergify_engine/context.py`.

The train implementation (`mergify_engine/queue/merge_train.py`) is not part
of the provided sources; only its unit tests
(`mergify_engine/tests/unit/test_train.py`) are.  Following the rules for
missing code, the train data model and its operations `add_pull`,
`remove_pull`, `refresh`, `load`, `save` are modelled from the
specification (spec.md sections 3, 4.2 and 6) and validated below against
every behaviour asserted by the unit tests.
-/

/-- Modelled from the spec: the per-queue-rule configuration consumed by the
train (`QueueRule.config` in the sources): a base ordering `priority` and the
admission width `speculative_checks` (spec section 2 and the
`QUEUE_RULES` fixture of `test_train.py`). -/
structure QueueConfig where
  priority : Int
  speculative_checks : Nat
deriving DecidableEq, Repr

/-- Modelled from the spec: `queue.PullQueueConfig`, the resolved per-pull
record (spec section 3), with the same fields the tests build in
`get_config`. -/
structure PullQueueConfig where
  name : String
  strict_method : String
  priority : Int
  effective_priority : Int
  bot_account : Option String
  update_bot_account : Option String
  queue_config : QueueConfig
deriving DecidableEq, Repr

/-- Modelled from the spec: one entry of the train's logical
`member_sequence`: a pull number together with its `PullQueueConfig`
(spec section 3). -/
structure TrainMember where
  number : Nat
  config : PullQueueConfig
deriving DecidableEq, Repr

/-- Modelled from the spec: a `TrainCar` — one speculative batch, holding the
ordered list of members before its own pull and its own pull number
(field names follow `test_train.py`'s `get_cars_content`). -/
structure TrainCar where
  parent_pull_request_numbers : List Nat
  user_pull_request_number : Nat
deriving DecidableEq, Repr

/-- Modelled from the spec: the per-(repository, branch) `Train` controller
owning the ordered member sequence and the materialized cars
(spec section 3).  The waiting list is the suffix of `member_sequence`
after the materialized cars, as required by the spec invariants. -/
structure Train where
  repository_id : Nat
  branch : String
  member_sequence : List TrainMember
  cars : List TrainCar
deriving DecidableEq, Repr

/-- Pull numbers of the train's logical member sequence, in order. -/
def seqNums (t : Train) : List Nat :=
  t.member_sequence.map TrainMember.number

/-- Modelled from the spec: the train's waiting list, i.e. the members past
the materialized cars (spec section 3 invariant
`waiting is exactly member_sequence[len(cars)..]`). -/
def Train.waiting_pulls (t : Train) : List TrainMember :=
  t.member_sequence.drop t.cars.length

/-- Content of one car, as the test helper `get_cars_content` computes it:
parent pull numbers followed by the car's own pull number. -/
def carContent (c : TrainCar) : List Nat :=
  c.parent_pull_request_numbers ++ [c.user_pull_request_number]

/-- Mirror of the test helper `get_cars_content`. -/
def get_cars_content (t : Train) : List (List Nat) :=
  t.cars.map carContent

/-- Mirror of the test helper `get_waiting_content`. -/
def get_waiting_content (t : Train) : List Nat :=
  t.waiting_pulls.map TrainMember.number

/-- Modelled from the spec: admission width of the queue rule governing the
head member, `0` for the empty sequence (spec section 4.2, `refresh`
step 1). -/
def trainWidth (t : Train) : Nat :=
  match t.member_sequence with
  | [] => 0
  | m :: _ => m.config.queue_config.speculative_checks

/-- A fresh, empty train for a repository and branch. -/
def Train.empty (repo : Nat) (branch : String) : Train :=
  ⟨repo, branch, [], []⟩

/-- Modelled from the spec: stable priority insertion used by `add_pull`
(spec section 4.2): the new member goes immediately before the first
existing entry whose `effective_priority` is strictly lower, after all
entries of equal or higher effective priority. -/
def insertByPriority (m : TrainMember) : List TrainMember → List TrainMember
  | [] => [m]
  | x :: xs =>
    if x.config.effective_priority < m.config.effective_priority then
      m :: x :: xs
    else
      x :: insertByPriority m xs

/-- Modelled from the spec: `Train.add_pull` (spec section 4.2).  A pull
already present anywhere in the member sequence has its stored config
replaced in place without recomputing its position; a new pull is inserted
by the stable priority sort.  Cars are not touched. -/
def Train.add_pull (t : Train) (n : Nat) (cfg : PullQueueConfig) : Train :=
  if n ∈ seqNums t then
    { t with
      member_sequence :=
        t.member_sequence.map fun m => if m.number = n then ⟨n, cfg⟩ else m }
  else
    { t with member_sequence := insertByPriority ⟨n, cfg⟩ t.member_sequence }

/-- Removes the first member carrying the given pull number. -/
def removeMember (n : Nat) : List TrainMember → List TrainMember
  | [] => []
  | m :: ms => if m.number = n then ms else m :: removeMember n ms

/-- Keeps the cars strictly before the first car whose own pull is `n`
(all cars when no car owns `n`). -/
def sliceCarsAt (n : Nat) : List TrainCar → List TrainCar
  | [] => []
  | c :: cs =>
    if c.user_pull_request_number = n then [] else c :: sliceCarsAt n cs

/-- Modelled from the spec: car impact of `remove_pull` (spec section 4.2).
When the removed pull is the head car's own pull and the platform reports it
merged, only the head car is dropped and the rest are untouched; otherwise
every car at or after the position of the removed pull is discarded (cars
are untouched when the pull only sits in the waiting list). -/
def removeCars (n : Nat) (merged : Bool) : List TrainCar → List TrainCar
  | [] => []
  | c :: cs =>
    if c.user_pull_request_number = n ∧ merged = true then cs
    else sliceCarsAt n (c :: cs)

/-- Modelled from the spec: `Train.remove_pull` (spec section 4.2).  A pull
absent from the member sequence is a no-op; otherwise it is deleted from the
member sequence and the cars are adjusted by `removeCars`.  The `merged`
flag is the platform-reported merged state of the pull. -/
def Train.remove_pull (t : Train) (n : Nat) (merged : Bool) : Train :=
  if n ∈ seqNums t then
    { t with
      member_sequence := removeMember n t.member_sequence,
      cars := removeCars n merged t.cars }
  else t

/-- Builds fresh speculative cars for the given own-pull numbers, each car's
parent list being the content of the previous car (starting from the given
already-validated parent list). -/
def buildCars (parents : List Nat) : List Nat → List TrainCar
  | [] => []
  | n :: ns => ⟨parents, n⟩ :: buildCars (parents ++ [n]) ns

/-- Modelled from the spec: car reconciliation of `refresh` (spec
section 4.2, step 3, corrected by the observed behaviour of
`test_train_remove_head_merged`): existing cars are kept index-by-index as
long as their own pull matches the desired member, and from the first
difference on the remaining desired cars are built fresh. -/
def rebuildCars : List TrainCar → List Nat → List Nat → List TrainCar
  | _, _, [] => []
  | [], parents, n :: ns => buildCars parents (n :: ns)
  | c :: cs, parents, n :: ns =>
    if c.user_pull_request_number = n then
      c :: rebuildCars cs (carContent c) ns
    else
      buildCars parents (n :: ns)

/-- Modelled from the spec: `Train.refresh` (spec section 4.2): the desired
car count is `min` of the admission width of the current head's queue rule
and the sequence length, and cars are reconciled against that desired
prefix.  The member sequence itself is unchanged, so the waiting list
becomes the suffix past the desired count. -/
def Train.refresh (t : Train) : Train :=
  { t with
    cars :=
      rebuildCars t.cars []
        ((seqNums t).take (min (trainWidth t) t.member_sequence.length)) }

/-- Modelled from the spec: the `QUEUE_PRIORITY_OFFSET` of
`mergify_engine/actions/merge_base.py` (absent from the sources): a fixed
offset large enough that rule priority always dominates the user priority
(spec section 3). -/
def QUEUE_PRIORITY_OFFSET : Int := 10000

/-- Modelled from the spec: the two queue rules of the tests' `QUEUE_RULES`
fixture; the rule listed first ("two") carries the higher rule priority, as
required by the observed reordering of `test_train_mutiple_queue`. -/
def QUEUE_RULES : List (String × QueueConfig) :=
  [("two", ⟨1, 2⟩), ("five", ⟨0, 5⟩)]

/-- Queue rule lookup for the test fixture. -/
def queueRuleConfig (queue_name : String) : QueueConfig :=
  (QUEUE_RULES.lookup queue_name).getD ⟨0, 0⟩

/-- Mirror of the test helper `get_config`: builds the `PullQueueConfig` of
a queue, deriving the effective priority from the user priority and the
rule priority scaled by `QUEUE_PRIORITY_OFFSET`. -/
def get_config (queue_name : String) (priority : Int) : PullQueueConfig :=
  { name := queue_name
    strict_method := "merge"
    priority := priority
    effective_priority :=
      priority + (queueRuleConfig queue_name).priority * QUEUE_PRIORITY_OFFSET
    bot_account := none
    update_bot_account := none
    queue_config := queueRuleConfig queue_name }


/-- Modelled from the spec: serialized form of one member of the persisted
train record (spec section 6), the config flattened to primitive fields. -/
structure SerializedMember where
  pull_number : Nat
  queue_name : String
  strict_method : String
  priority : Int
  effective_priority : Int
  bot_account : Option String
  update_bot_account : Option String
  rule_priority : Int
  speculative_checks : Nat
deriving DecidableEq, Repr

/-- Modelled from the spec: serialized form of one car of the persisted
train record (spec section 6). -/
structure SerializedCar where
  parent_pull_request_numbers : List Nat
  user_pull_request_number : Nat
deriving DecidableEq, Repr

/-- Modelled from the spec: the persisted train record (spec section 6),
carrying the cars and the full member sequence with configs, so that the
admission width of the head is recoverable after a reload (as
`test_train_mutiple_queue` requires). -/
structure SerializedTrain where
  cars : List SerializedCar
  member_sequence : List SerializedMember
deriving DecidableEq, Repr

/-- Serialization of one member. -/
def serializeMember (m : TrainMember) : SerializedMember :=
  { pull_number := m.number
    queue_name := m.config.name
    strict_method := m.config.strict_method
    priority := m.config.priority
    effective_priority := m.config.effective_priority
    bot_account := m.config.bot_account
    update_bot_account := m.config.update_bot_account
    rule_priority := m.config.queue_config.priority
    speculative_checks := m.config.queue_config.speculative_checks }

/-- Deserialization of one member. -/
def deserializeMember (m : SerializedMember) : TrainMember :=
  { number := m.pull_number
    config :=
      { name := m.queue_name
        strict_method := m.strict_method
        priority := m.priority
        effective_priority := m.effective_priority
        bot_account := m.bot_account
        update_bot_account := m.update_bot_account
        queue_config := ⟨m.rule_priority, m.speculative_checks⟩ } }

/-- Serialization of one car. -/
def serializeCar (c : TrainCar) : SerializedCar :=
  ⟨c.parent_pull_request_numbers, c.user_pull_request_number⟩

/-- Deserialization of one car. -/
def deserializeCar (c : SerializedCar) : TrainCar :=
  ⟨c.parent_pull_request_numbers, c.user_pull_request_number⟩

/-- Serialization of the full train state. -/
def serializeTrain (t : Train) : SerializedTrain :=
  ⟨t.cars.map serializeCar, t.member_sequence.map serializeMember⟩

/-- Modelled from the spec: the key of the persisted train record,
`train/{repository_id}/{branch}` (spec section 6). -/
def train_store_key (repo : Nat) (branch : String) : String :=
  "train/" ++ toString repo ++ "/" ++ branch

/-- The external key-value persistence store, newest binding first. -/
def TrainStore : Type := List (String × SerializedTrain)

/-- Writing a key overwrites any previous binding (newest binding wins). -/
def storePut (store : TrainStore) (k : String) (v : SerializedTrain) : TrainStore :=
  (k, v) :: store

/-- First-match key lookup. -/
def storeFind (store : TrainStore) (k : String) : Option SerializedTrain :=
  List.lookup k store

/-- Modelled from the spec: `Train.save` — serialize the full train state
under the repository+branch key (spec sections 4.2 and 6). -/
def Train.save (t : Train) (store : TrainStore) : TrainStore :=
  storePut store (train_store_key t.repository_id t.branch) (serializeTrain t)

/-- Modelled from the spec: `Train.load` — construct a fresh train for a
repository and branch and deserialize its persisted state, the empty train
when nothing was persisted yet (spec section 4.2). -/
def Train.load (store : TrainStore) (repo : Nat) (branch : String) : Train :=
  match storeFind store (train_store_key repo branch) with
  | some raw =>
    { repository_id := repo
      branch := branch
      member_sequence := raw.member_sequence.map deserializeMember
      cars := raw.cars.map deserializeCar }
  | none => Train.empty repo branch

/-- A GitHub account, with the two fields `context.py` reads: `id` and
`login`. -/
structure GitHubAccount where
  id : Nat
  login : String
deriving DecidableEq, Repr

/-- A label, as read by `Context._get_consolidated_data` ("label"). -/
structure GitHubLabel where
  name : String
deriving DecidableEq, Repr

/-- A requested team, as read for "review-requested". -/
structure GitHubTeam where
  slug : String
deriving DecidableEq, Repr

/-- A milestone, as read for "milestone". -/
structure GitHubMilestone where
  title : String
deriving DecidableEq, Repr

/-- A base or head branch reference, as read for "base" and "head". -/
structure GitHubBranchRef where
  ref : String
deriving DecidableEq, Repr

/-- A consolidated review (the `user["login"]` and `state` fields of a
GitHub review, after `Context.consolidated_reviews` filtering). -/
structure GitHubReview where
  userLogin : String
  state : String
deriving DecidableEq, Repr

/-- The fields of the pull-request snapshot `self.pull` that
`Context._get_consolidated_data` reads (context.py lines 587-685). -/
structure GitHubPullRequest where
  assignees : List GitHubAccount
  labels : List GitHubLabel
  requested_reviewers : List GitHubAccount
  requested_teams : List GitHubTeam
  draft : Bool
  user : GitHubAccount
  merged_by : Option GitHubAccount
  merged : Bool
  state : String
  milestone : Option GitHubMilestone
  number : Nat
  mergeable_state : String
  base : GitHubBranchRef
  head : GitHubBranchRef
  locked : Bool
  title : String
  body : String
deriving DecidableEq, Repr

/-- The pull-request context of `context.py`, restricted to the data
`_get_consolidated_data` consults: the pull snapshot, the file names of
`self.files`, the check name/state pairs of `self.checks`, and the two
components (comments, approvals) of `consolidated_reviews()`. -/
structure Context where
  pull : GitHubPullRequest
  files : List String
  checks : List (String × String)
  comments : List GitHubReview
  approvals : List GitHubReview
deriving DecidableEq, Repr

/-- `PullRequestAttributeError` of context.py (lines 62-64): an attribute
error carrying the unknown attribute name. -/
structure PullRequestAttributeError where
  name : String
deriving DecidableEq, Repr

/-- A consolidated attribute value: the value shapes
`_get_consolidated_data` can return. -/
inductive ConsolidatedValue where
  | vBool : Bool → ConsolidatedValue
  | vStr : String → ConsolidatedValue
  | vList : List String → ConsolidatedValue
  | vNum : Nat → ConsolidatedValue
deriving DecidableEq, Repr

/-- `Context._get_consolidated_data` (context.py lines 587-685) as an
explicit tagged lookup: recognised attribute names return their
consolidated value, every other name raises `PullRequestAttributeError`
carrying that name. -/
def Context.get_consolidated_data (c : Context) (name : String) :
    Except PullRequestAttributeError ConsolidatedValue :=
  if name = "assignee" then
    .ok (.vList (c.pull.assignees.map GitHubAccount.login))
  else if name = "label" then
    .ok (.vList (c.pull.labels.map GitHubLabel.name))
  else if name = "review-requested" then
    .ok (.vList (c.pull.requested_reviewers.map GitHubAccount.login ++
      c.pull.requested_teams.map fun t => "@" ++ t.slug))
  else if name = "draft" then
    .ok (.vBool c.pull.draft)
  else if name = "author" then
    .ok (.vStr c.pull.user.login)
  else if name = "merged-by" then
    .ok (.vStr (match c.pull.merged_by with
      | some u => u.login
      | none => ""))
  else if name = "merged" then
    .ok (.vBool c.pull.merged)
  else if name = "closed" then
    .ok (.vBool (c.pull.state == "closed"))
  else if name = "milestone" then
    .ok (.vStr (match c.pull.milestone with
      | some m => m.title
      | none => ""))
  else if name = "number" then
    .ok (.vNum c.pull.number)
  else if name = "conflict" then
    .ok (.vBool (c.pull.mergeable_state == "dirty"))
  else if name = "base" then
    .ok (.vStr c.pull.base.ref)
  else if name = "head" then
    .ok (.vStr c.pull.head.ref)
  else if name = "locked" then
    .ok (.vBool c.pull.locked)
  else if name = "title" then
    .ok (.vStr c.pull.title)
  else if name = "body" then
    .ok (.vStr c.pull.body)
  else if name = "files" then
    .ok (.vList c.files)
  else if name = "approved-reviews-by" then
    .ok (.vList ((c.approvals.filter fun r => r.state == "APPROVED").map
      GitHubReview.userLogin))
  else if name = "dismissed-reviews-by" then
    .ok (.vList ((c.approvals.filter fun r => r.state == "DISMISSED").map
      GitHubReview.userLogin))
  else if name = "changes-requested-reviews-by" then
    .ok (.vList ((c.approvals.filter fun r => r.state == "CHANGES_REQUESTED").map
      GitHubReview.userLogin))
  else if name = "commented-reviews-by" then
    .ok (.vList ((c.comments.filter fun r => r.state == "COMMENTED").map
      GitHubReview.userLogin))
  else if name = "status-success" ∨ name = "check-success" then
    .ok (.vList ((c.checks.filter fun p => p.2 == "success").map Prod.fst))
  else if name = "status-failure" ∨ name = "check-failure" then
    .ok (.vList ((c.checks.filter fun p => p.2 == "failure").map Prod.fst))
  else if name = "status-neutral" ∨ name = "check-neutral" then
    .ok (.vList ((c.checks.filter fun p => p.2 == "neutral").map Prod.fst))
  else
    .error ⟨name⟩

/-- The attribute names `_get_consolidated_data` recognises, in source
order. -/
def recognisedAttributes : List String :=
  ["assignee", "label", "review-requested", "draft", "author", "merged-by",
   "merged", "closed", "milestone", "number", "conflict", "base", "head",
   "locked", "title", "body", "files", "approved-reviews-by",
   "dismissed-reviews-by", "changes-requested-reviews-by",
   "commented-reviews-by", "status-success", "check-success",
   "status-failure", "check-failure", "status-neutral", "check-neutral"]

/-- `Repository.USERS_PERMISSION_CACHE_KEY_PREFIX` (context.py line 317). -/
def USERS_PERMISSION_CACHE_KEY_PREFIX : String := "users_permission"

/-- `Repository.USERS_PERMISSION_CACHE_KEY_DELIMITER` (context.py
line 318). -/
def USERS_PERMISSION_CACHE_KEY_DELIMITER : String := "/"

/-- `Repository.USERS_PERMISSION_EXPIRATION` (context.py line 319): one
hour, in seconds. -/
def USERS_PERMISSION_EXPIRATION : Nat := 3600

/-- `Repository._users_permission_cache_key_for_repo` (context.py lines
321-331): the cache key combining owner id and repository id. -/
def users_permission_cache_key_for_repo (owner_id repo_id : Nat) : String :=
  USERS_PERMISSION_CACHE_KEY_PREFIX ++
    USERS_PERMISSION_CACHE_KEY_DELIMITER ++ toString owner_id ++
    USERS_PERMISSION_CACHE_KEY_DELIMITER ++ toString repo_id

/-- The redis state `has_write_permission` touches: string-keyed hashes of
user id to permission string, and per-key expirations (newest binding
first in each association list). -/
structure RedisState where
  hashes : List (String × List (Nat × String))
  ttls : List (String × Nat)
deriving DecidableEq, Repr

/-- Redis `hget`: field lookup inside the hash stored at a key. -/
def RedisState.hget (s : RedisState) (k : String) (field : Nat) :
    Option String :=
  ((List.lookup k s.hashes).getD []).lookup field

/-- Redis `hset`: store a field inside the hash at a key. -/
def RedisState.hset (s : RedisState) (k : String) (field : Nat)
    (v : String) : RedisState :=
  { s with hashes := (k, (field, v) :: (List.lookup k s.hashes).getD []) :: s.hashes }

/-- Redis `expire`: set the time-to-live of a key. -/
def RedisState.expire (s : RedisState) (k : String) (ttl : Nat) : RedisState :=
  { s with ttls := (k, ttl) :: s.ttls }

/-- The repository of `context.py`, restricted to the fields
`has_write_permission` reads: the installation owner id and the repository
id. -/
structure Repository where
  owner_id : Nat
  id : Nat
deriving DecidableEq, Repr

/-- `Repository._users_permission_cache_key` (context.py lines 333-337). -/
def Repository.users_permission_cache_key (r : Repository) : String :=
  users_permission_cache_key_for_repo r.owner_id r.id

/-- The permission strings granting write access (context.py
lines 389-393). -/
def writePermissions : List String := ["admin", "maintain", "write"]

/-- `Repository.has_write_permission` (context.py lines 375-393): consult
the one-hour redis cache keyed by owner, repository and user id; on a miss
fetch the permission from the platform (`platform` maps a login to the
permission string GitHub reports), cache it and set the expiration; return
whether the permission is admin, maintain or write. -/
def Repository.has_write_permission (r : Repository) (redis : RedisState)
    (platform : String → String) (user : GitHubAccount) :
    Bool × RedisState :=
  let key := r.users_permission_cache_key
  match redis.hget key user.id with
  | some permission => (writePermissions.contains permission, redis)
  | none =>
    let permission := platform user.login
    let redis1 :=
      (redis.hset key user.id permission).expire key
        USERS_PERMISSION_EXPIRATION
    (writePermissions.contains permission, redis1)

/-- One car directly follows another when its parent list is exactly the
content of the other (spec section 3: `cars[i]` extends `cars[i-1]` by one
member). -/
def carFollows (c d : TrainCar) : Prop :=
  d.parent_pull_request_numbers = carContent c

instance : DecidableRel carFollows := fun c d =>
  inferInstanceAs (Decidable (d.parent_pull_request_numbers = carContent c))

/-- Parent list of the head car, `[]` for an empty car list.  For a train
that never dropped a merged head car this is empty; after such a drop it
holds the already-merged members the remaining cars still rest on. -/
def headParentsList : List TrainCar → List Nat
  | [] => []
  | c :: _ => c.parent_pull_request_numbers

/-- The train states reachable from a fresh empty train through the
caller-facing mutations (spec section 6). -/
inductive TrainReachable : Train → Prop
  | init (repo : Nat) (branch : String) : TrainReachable (Train.empty repo branch)
  | addStep (t : Train) (n : Nat) (cfg : PullQueueConfig) :
      TrainReachable t → TrainReachable (t.add_pull n cfg)
  | removeStep (t : Train) (n : Nat) (merged : Bool) :
      TrainReachable t → TrainReachable (t.remove_pull n merged)
  | refreshStep (t : Train) : TrainReachable t → TrainReachable t.refresh

/-- Config of the "five" queue at the tests' default user priority. -/
def cfgFive : PullQueueConfig := get_config "five" 100

/-- Scenario A train (`test_train_add_pull`): pulls 1, 2, 3 admitted to the
width-5 queue and refreshed. -/
def tA : Train :=
  ((((Train.empty 123 "branch").add_pull 1 cfgFive).refresh.add_pull 2
      cfgFive).refresh.add_pull 3 cfgFive).refresh

/-- Scenario E train (`test_train_remove_head_merged`): scenario A followed
by removal of merged pull 1. -/
def tE : Train := tA.remove_pull 1 true

/-- Config of the "two" queue at user priority 0
(`test_train_mutiple_queue`). -/
def cfg2 : PullQueueConfig := get_config "two" 0

/-- Config of the "five" queue at user priority 0
(`test_train_mutiple_queue`). -/
def cfg5 : PullQueueConfig := get_config "five" 0

/-- Multiple-queue scenario, first stage: pulls 1, 2 of queue "two" and
3, 4 of queue "five", refreshed. -/
def tF0 : Train :=
  (((((Train.empty 123 "branch").add_pull 1 cfg2).add_pull 2 cfg2).add_pull
      3 cfg5).add_pull 4 cfg5).refresh

/-- Multiple-queue scenario, second stage: higher-rule-priority pull 5
added. -/
def tF1 : Train := (tF0.add_pull 5 cfg2).refresh

/-- Multiple-queue scenario, third stage: pulls 6-9 of queue "five"
added. -/
def tF2 : Train :=
  ((((tF1.add_pull 6 cfg5).add_pull 7 cfg5).add_pull 8 cfg5).add_pull 9
      cfg5).refresh

/-- Multiple-queue scenario, fourth stage: pull 2 removed. -/
def tF3 : Train := (tF2.remove_pull 2 false).refresh

/-- Multiple-queue scenario, final stage: pulls 1 and 5 removed, the head
drains to pull 3 of the width-5 queue. -/
def tF4 : Train := ((tF3.remove_pull 1 false).remove_pull 5 false).refresh

theorem buildCars_length (p ns : List Nat) :
    (buildCars p ns).length = ns.length := by
  induction ns generalizing p with
  | nil => rfl
  | cons n ns ih => simp [buildCars, ih]

theorem rebuildCars_length (cs : List TrainCar) (p ns : List Nat) :
    (rebuildCars cs p ns).length = ns.length := by
  induction ns generalizing cs p with
  | nil => cases cs <;> rfl
  | cons n ns ih =>
    cases cs with
    | nil => simp [rebuildCars, buildCars_length]
    | cons c cs =>
      by_cases h : c.user_pull_request_number = n
      · simp [rebuildCars, h, ih]
      · simp [rebuildCars, h, buildCars_length]

theorem buildCars_users (p ns : List Nat) :
    (buildCars p ns).map TrainCar.user_pull_request_number = ns := by
  induction ns generalizing p with
  | nil => rfl
  | cons n ns ih => simp [buildCars, ih]

theorem rebuildCars_users (cs : List TrainCar) (p ns : List Nat) :
    (rebuildCars cs p ns).map TrainCar.user_pull_request_number = ns := by
  induction ns generalizing cs p with
  | nil => cases cs <;> rfl
  | cons n ns ih =>
    cases cs with
    | nil => simp [rebuildCars, buildCars_users]
    | cons c cs =>
      by_cases h : c.user_pull_request_number = n
      · simp [rebuildCars, h, ih]
      · simp [rebuildCars, h, buildCars_users]

theorem buildCars_head_parents (p ns : List Nat) (c : TrainCar)
    (h : (buildCars p ns).head? = some c) :
    c.parent_pull_request_numbers = p := by
  cases ns with
  | nil => simp [buildCars] at h
  | cons n ns =>
    simp [buildCars] at h
    rw [← h]

theorem buildCars_chain (p ns : List Nat) :
    List.Chain' carFollows (buildCars p ns) := by
  induction ns generalizing p with
  | nil => simp [buildCars]
  | cons n ns ih =>
    rw [buildCars]
    refine List.chain'_cons'.mpr ⟨?_, ih _⟩
    intro d hd
    have hp := buildCars_head_parents _ _ _ hd
    simpa [carFollows, carContent] using hp

theorem rebuildCars_head (cs : List TrainCar) (p ns : List Nat) (c : TrainCar)
    (h : (rebuildCars cs p ns).head? = some c) :
    c.parent_pull_request_numbers = p ∨ cs.head? = some c := by
  cases ns with
  | nil => simp [rebuildCars] at h
  | cons n ns =>
    cases cs with
    | nil => exact Or.inl (buildCars_head_parents _ _ _ (by simpa [rebuildCars] using h))
    | cons d ds =>
      rw [rebuildCars] at h
      by_cases hu : d.user_pull_request_number = n
      · rw [if_pos hu] at h
        simp at h
        right
        simp [h]
      · rw [if_neg hu] at h
        exact Or.inl (buildCars_head_parents _ _ _ h)

theorem rebuildCars_chain (cs : List TrainCar) (p ns : List Nat)
    (hc : List.Chain' carFollows cs) :
    List.Chain' carFollows (rebuildCars cs p ns) := by
  induction ns generalizing cs p with
  | nil => cases cs <;> simp [rebuildCars]
  | cons n ns ih =>
    cases cs with
    | nil => rw [rebuildCars]; exact buildCars_chain _ _
    | cons c cs =>
      rw [rebuildCars]
      by_cases hu : c.user_pull_request_number = n
      · rw [if_pos hu]
        refine List.chain'_cons'.mpr ⟨?_, ih cs (carContent c) (List.chain'_cons'.mp hc).2⟩
        intro d hd
        rcases rebuildCars_head _ _ _ _ hd with hp | hh
        · exact hp
        · exact (List.chain'_cons'.mp hc).1 d hh
      · rw [if_neg hu]
        exact buildCars_chain _ _

theorem chain_content (l : List TrainCar) (hc : List.Chain' carFollows l) :
    ∀ i (h : i < l.length),
      carContent (l.get ⟨i, h⟩) =
        headParentsList l ++
          (l.map TrainCar.user_pull_request_number).take (i + 1) := by
  induction l with
  | nil => intro i h; exact absurd h (by simp)
  | cons c cs ih =>
    intro i h
    cases i with
    | zero => simp [headParentsList, carContent]
    | succ i =>
      have hc2 := (List.chain'_cons'.mp hc).2
      have hlt : i < cs.length := by simpa using h
      have hrec := ih hc2 i hlt
      cases cs with
      | nil => simp at hlt
      | cons d ds =>
        have hR : carFollows c d := (List.chain'_cons'.mp hc).1 d rfl
        have hd : d.parent_pull_request_numbers = carContent c := hR
        simp only [List.get_cons_succ] at hrec ⊢
        rw [hrec]
        simp [headParentsList, hd, carContent, List.take_succ_cons]

theorem seqNums_length (t : Train) :
    (seqNums t).length = t.member_sequence.length := by
  simp [seqNums]

theorem refresh_member_sequence (t : Train) :
    t.refresh.member_sequence = t.member_sequence := rfl

theorem refresh_cars_length (t : Train) :
    t.refresh.cars.length = min (trainWidth t) t.member_sequence.length := by
  simp [Train.refresh, rebuildCars_length, List.length_take, seqNums_length]

theorem refresh_cars_users (t : Train) :
    t.refresh.cars.map TrainCar.user_pull_request_number =
      (seqNums t).take (min (trainWidth t) t.member_sequence.length) := by
  simp [Train.refresh, rebuildCars_users]

theorem add_pull_cars (t : Train) (n : Nat) (cfg : PullQueueConfig) :
    (t.add_pull n cfg).cars = t.cars := by
  unfold Train.add_pull
  split <;> rfl

theorem sliceCarsAt_head (n : Nat) (cs : List TrainCar) (c : TrainCar)
    (h : (sliceCarsAt n cs).head? = some c) : cs.head? = some c := by
  cases cs with
  | nil => simp [sliceCarsAt] at h
  | cons d ds =>
    rw [sliceCarsAt] at h
    by_cases hu : d.user_pull_request_number = n
    · rw [if_pos hu] at h; simp at h
    · rw [if_neg hu] at h; simpa using h

theorem sliceCarsAt_chain (n : Nat) (cs : List TrainCar)
    (hc : List.Chain' carFollows cs) :
    List.Chain' carFollows (sliceCarsAt n cs) := by
  induction cs with
  | nil => simp [sliceCarsAt]
  | cons c cs ih =>
    rw [sliceCarsAt]
    by_cases hu : c.user_pull_request_number = n
    · simp [hu]
    · rw [if_neg hu]
      refine List.chain'_cons'.mpr ⟨?_, ih (List.chain'_cons'.mp hc).2⟩
      intro d hd
      exact (List.chain'_cons'.mp hc).1 d (sliceCarsAt_head _ _ _ hd)

theorem removeCars_chain (n : Nat) (merged : Bool) (cs : List TrainCar)
    (hc : List.Chain' carFollows cs) :
    List.Chain' carFollows (removeCars n merged cs) := by
  cases cs with
  | nil => simp [removeCars]
  | cons c cs =>
    rw [removeCars]
    split
    · exact (List.chain'_cons'.mp hc).2
    · exact sliceCarsAt_chain _ _ hc

theorem remove_pull_chain (t : Train) (n : Nat) (merged : Bool)
    (hc : List.Chain' carFollows t.cars) :
    List.Chain' carFollows (t.remove_pull n merged).cars := by
  unfold Train.remove_pull
  split
  · exact removeCars_chain _ _ _ hc
  · exact hc

theorem reachable_chain (t : Train) (h : TrainReachable t) :
    List.Chain' carFollows t.cars := by
  induction h with
  | init repo branch => simp [Train.empty]
  | addStep t n cfg _ ih => rw [add_pull_cars]; exact ih
  | removeStep t n merged _ ih => exact remove_pull_chain _ _ _ ih
  | refreshStep t _ ih => exact rebuildCars_chain _ _ _ ih

theorem reach_tA : TrainReachable tA :=
  .refreshStep _ (.addStep _ 3 cfgFive (.refreshStep _ (.addStep _ 2 cfgFive
    (.refreshStep _ (.addStep _ 1 cfgFive (.init 123 "branch"))))))

theorem reach_tE : TrainReachable tE :=
  .removeStep _ 1 true reach_tA

/-- C1 (counterexample): the claimed invariant — after every `refresh` the
car count is `min(admission width of head, sequence length)` and car `i`'s
content equals the member-sequence prefix `[0..i]` — is false for the
reachable train of `test_train_remove_head_merged`: after merged pull 1 is
removed and the train refreshed, the head car's content is `[1, 2]` while
the member-sequence prefix of length one is `[2]`. -/
theorem c1_invariant_counterexample :
    ¬ (∀ t, TrainReachable t →
        (t.refresh.cars.length = min (trainWidth t) t.member_sequence.length ∧
         ∀ i (hi : i < t.refresh.cars.length),
           carContent (t.refresh.cars.get ⟨i, hi⟩) = (seqNums t).take (i + 1))) := by
  intro hall
  have h0 : (0 : Nat) < tE.refresh.cars.length := by decide
  have heq := (hall tE reach_tE).2 0 h0
  have heq2 : carContent (tE.refresh.cars.get ⟨0, by decide⟩) =
      (seqNums tE).take (0 + 1) := heq
  exact absurd heq2 (by decide)

/-- C1 (amended): for every reachable train, after every `refresh` the car
count equals `min(admission width of the head's queue rule, length of
member_sequence)`, and car `i`'s content equals `H ++ member_sequence[0..i]`
where `H` is the head car's carried parent list of already-merged pulls —
`H` is empty (and the content is exactly the prefix) unless a merged head
car has been dropped. -/
theorem c1_refresh_invariant (t : Train) (h : TrainReachable t) :
    t.refresh.cars.length = min (trainWidth t) t.member_sequence.length ∧
    ∀ i (hi : i < t.refresh.cars.length),
      carContent (t.refresh.cars.get ⟨i, hi⟩) =
        headParentsList t.refresh.cars ++ (seqNums t).take (i + 1) := by
  have hchain : List.Chain' carFollows t.refresh.cars :=
    rebuildCars_chain _ _ _ (reachable_chain t h)
  refine ⟨refresh_cars_length t, ?_⟩
  intro i hi
  have hco := chain_content _ hchain i hi
  rw [hco, refresh_cars_users]
  have hd : i + 1 ≤ min (trainWidth t) t.member_sequence.length := by
    rw [refresh_cars_length] at hi
    omega
  rw [List.take_take]
  congr 2
  omega

/-- C1 (witness): the amended invariant applied to the concrete scenario-A
train `[1], [1,2], [1,2,3]`. -/
theorem c1_refresh_invariant_witness :
    TrainReachable tA ∧
      tA.refresh.cars.length = min (trainWidth tA) tA.member_sequence.length :=
  ⟨reach_tA, (c1_refresh_invariant tA reach_tA).1⟩

theorem chain_tail_parents (c : TrainCar) (cs : List TrainCar)
    (hc : List.Chain' carFollows (c :: cs)) :
    ∀ d ∈ cs, ∀ x ∈ carContent c, x ∈ d.parent_pull_request_numbers := by
  induction cs generalizing c with
  | nil => intro d hd; simp at hd
  | cons e es ih =>
    intro d hd x hx
    have h1 : carFollows c e := (List.chain'_cons'.mp hc).1 e rfl
    rcases List.mem_cons.mp hd with rfl | hd2
    · rw [carFollows] at h1
      rw [h1]
      exact hx
    · refine ih e (List.chain'_cons'.mp hc).2 d hd2 x ?_
      rw [carContent, h1]
      exact List.mem_append_left _ hx

/-- C2: removing the head car's own pull while the platform reports it
merged drops exactly the head car and leaves every other car completely
untouched, each still carrying the merged pull in its parent list; in the
concrete `test_train_remove_head_merged` scenario, cars `[1],[1,2],[1,2,3]`
become `[1,2],[1,2,3]` after removing merged pull 1 and refreshing. -/
theorem c2_remove_head_merged :
    (∀ t n c cs, TrainReachable t → t.cars = c :: cs →
       c.user_pull_request_number = n → n ∈ seqNums t →
       ((t.remove_pull n true).cars = cs ∧
        (t.remove_pull n true).member_sequence =
          removeMember n t.member_sequence ∧
        ∀ d ∈ cs, n ∈ d.parent_pull_request_numbers)) ∧
    (get_cars_content tE.refresh = [[1, 2], [1, 2, 3]] ∧
     ∀ l ∈ get_cars_content tE.refresh, 1 ∈ l) := by
  constructor
  · intro t n c cs hr hcars huser hmem
    have hrem : t.remove_pull n true =
        { t with
          member_sequence := removeMember n t.member_sequence,
          cars := removeCars n true t.cars } := by
      unfold Train.remove_pull
      rw [if_pos hmem]
    have hrc : removeCars n true t.cars = cs := by
      rw [hcars, removeCars, if_pos ⟨huser, rfl⟩]
    refine ⟨by rw [hrem]; exact hrc, by rw [hrem], ?_⟩
    intro d hd
    have hchain := reachable_chain t hr
    rw [hcars] at hchain
    refine chain_tail_parents c cs hchain d hd n ?_
    rw [carContent, ← huser]
    exact List.mem_append_right _ (List.mem_singleton.mpr rfl)
  · exact ⟨by decide, by decide⟩

/-- C2 (witness): the general statement applied to the scenario-A train
`[1],[1,2],[1,2,3]` with merged head pull 1. -/
theorem c2_remove_head_merged_witness :
    (tA.remove_pull 1 true).cars = [TrainCar.mk [1] 2, TrainCar.mk [1, 2] 3] :=
  (c2_remove_head_merged.1 tA 1 (TrainCar.mk [] 1)
    [TrainCar.mk [1] 2, TrainCar.mk [1, 2] 3] reach_tA (by decide) rfl
    (by decide)).1

theorem sliceCarsAt_append (n : Nat) (pre : List TrainCar) (c : TrainCar)
    (post : List TrainCar) (hpre : ∀ d ∈ pre, d.user_pull_request_number ≠ n)
    (huser : c.user_pull_request_number = n) :
    sliceCarsAt n (pre ++ c :: post) = pre := by
  induction pre with
  | nil => simp [sliceCarsAt, huser]
  | cons p ps ih =>
    have hp : p.user_pull_request_number ≠ n := hpre p (by simp)
    simp only [List.cons_append, sliceCarsAt, if_neg hp]
    exact congrArg (fun l => p :: l) (ih fun d hd => hpre d (by simp [hd]))

theorem removeMember_nums (n : Nat) (ms : List TrainMember) :
    (removeMember n ms).map TrainMember.number =
      (ms.map TrainMember.number).erase n := by
  induction ms with
  | nil => rfl
  | cons m ms ih =>
    by_cases hm : m.number = n
    · simp [removeMember, hm, List.erase_cons]
    · simp [removeMember, hm, List.erase_cons, ih]

theorem get_waiting_eq (t : Train) :
    get_waiting_content t = (seqNums t).drop t.cars.length := by
  simp [get_waiting_content, Train.waiting_pulls, seqNums, List.map_drop]

/-- C3: removing a pull found in an interior car, or in the head car while
not merged, discards every car at or after that position, deletes the pull
from the member sequence, and re-queues the pulls of the discarded cars
other than the removed one — in their original relative order — ahead of
all previously-waiting entries; concretely, from cars `[1],[1,2],[1,2,3]`,
removing pull 2 then refreshing gives `[1],[1,3]` and removing unmerged
pull 1 then refreshing gives `[2],[2,3]`. -/
theorem c3_remove_discards_suffix :
    (∀ t n merged (pre : List TrainCar) c post,
       t.cars = pre ++ c :: post →
       (∀ d ∈ pre, d.user_pull_request_number ≠ n) →
       c.user_pull_request_number = n →
       (pre ≠ [] ∨ merged = false) →
       n ∈ seqNums t →
       seqNums t = t.cars.map TrainCar.user_pull_request_number ++
         get_waiting_content t →
       ((t.remove_pull n merged).cars = pre ∧
        (t.remove_pull n merged).member_sequence =
          removeMember n t.member_sequence ∧
        get_waiting_content (t.remove_pull n merged) =
          post.map TrainCar.user_pull_request_number ++
            get_waiting_content t)) ∧
    (get_cars_content (tA.remove_pull 2 false).refresh = [[1], [1, 3]] ∧
     get_cars_content (tA.remove_pull 1 false).refresh = [[2], [2, 3]]) := by
  constructor
  · intro t n merged pre c post hcars hpre huser hnm hmem halign
    have hrem : t.remove_pull n merged =
        { t with
          member_sequence := removeMember n t.member_sequence,
          cars := removeCars n merged t.cars } := by
      unfold Train.remove_pull
      rw [if_pos hmem]
    have hrc : removeCars n merged t.cars = pre := by
      rw [hcars]
      cases pre with
      | nil =>
        have hmf : merged = false := by
          rcases hnm with h | h
          · exact absurd rfl h
          · exact h
        subst hmf
        rw [List.nil_append, removeCars, if_neg (by simp)]
        simp [sliceCarsAt, huser]
      | cons p ps =>
        have hp : p.user_pull_request_number ≠ n := hpre p (by simp)
        rw [List.cons_append, removeCars, if_neg (by simp [hp])]
        exact sliceCarsAt_append n (p :: ps) c post hpre huser
    have hcars2 : (t.remove_pull n merged).cars = pre := by
      rw [hrem]
      exact hrc
    refine ⟨hcars2, by rw [hrem], ?_⟩
    rw [get_waiting_eq, hcars2]
    have hseq : seqNums (t.remove_pull n merged) = (seqNums t).erase n := by
      rw [hrem]
      show (removeMember n t.member_sequence).map TrainMember.number = _
      exact removeMember_nums n t.member_sequence
    rw [hseq, halign, hcars]
    have hnotpre : n ∉ pre.map TrainCar.user_pull_request_number := by
      intro hx
      rcases List.mem_map.mp hx with ⟨d, hd, hdn⟩
      exact hpre d hd hdn
    rw [List.map_append, List.map_cons, huser, List.append_assoc,
      List.erase_append_right _ hnotpre, List.cons_append,
      List.erase_cons_head,
      show pre.length =
        (pre.map TrainCar.user_pull_request_number).length from
        (List.length_map _ _).symm]
    exact List.drop_left _ _
  · exact ⟨by decide, by decide⟩

/-- C3 (witness): the general statement applied to the scenario train
`[1],[1,2],[1,2,3]` with interior pull 2. -/
theorem c3_remove_discards_suffix_witness :
    (tA.remove_pull 2 false).cars = [TrainCar.mk [] 1] :=
  (c3_remove_discards_suffix.1 tA 2 false [TrainCar.mk [] 1]
    (TrainCar.mk [1] 2) [TrainCar.mk [1, 2] 3] (by decide) (by decide) rfl
    (Or.inr rfl) (by decide) (by decide)).1

theorem replaceConfig_nums (n : Nat) (cfg : PullQueueConfig)
    (ms : List TrainMember) :
    (ms.map fun m =>
        if m.number = n then (⟨n, cfg⟩ : TrainMember) else m).map
      TrainMember.number = ms.map TrainMember.number := by
  induction ms with
  | nil => rfl
  | cons m ms ih =>
    by_cases h : m.number = n <;> simp [h, ih]

theorem refresh_cars_eq (t : Train) :
    t.refresh.cars =
      rebuildCars t.cars []
        ((seqNums t).take (min (trainWidth t) (seqNums t).length)) := by
  rw [Train.refresh]
  simp [seqNums_length]

theorem refresh_congr (t1 t2 : Train) (hc : t1.cars = t2.cars)
    (hs : seqNums t1 = seqNums t2) (hw : trainWidth t1 = trainWidth t2) :
    t1.refresh.cars = t2.refresh.cars := by
  rw [refresh_cars_eq, refresh_cars_eq, hc, hs, hw]

theorem refresh_waiting (t : Train) :
    get_waiting_content t.refresh =
      (seqNums t).drop (min (trainWidth t) t.member_sequence.length) := by
  rw [get_waiting_eq, refresh_cars_length]
  rfl

/-- C4: calling `add_pull` for a pull number already present anywhere in
the member sequence replaces the stored config in place, leaves the
sequence of pull numbers (hence the pull's position) unchanged, touches no
car, and — as long as the head's admission width is unchanged, which holds
when only the priority differs — leaves the car contents and waiting
contents after `refresh` identical; concretely, re-adding pull 1 with a
different priority leaves the scenario-A cars `[1],[1,2],[1,2,3]`
unchanged. -/
theorem c4_add_pull_idempotent :
    (∀ t n cfg, n ∈ seqNums t →
       (seqNums (t.add_pull n cfg) = seqNums t ∧
        (t.add_pull n cfg).member_sequence =
          t.member_sequence.map
            (fun m => if m.number = n then ⟨n, cfg⟩ else m) ∧
        (t.add_pull n cfg).cars = t.cars ∧
        (trainWidth (t.add_pull n cfg) = trainWidth t →
          get_cars_content (t.add_pull n cfg).refresh =
              get_cars_content t.refresh ∧
            get_waiting_content (t.add_pull n cfg).refresh =
              get_waiting_content t.refresh))) ∧
    (get_cars_content (tA.add_pull 1 (get_config "five" 10)).refresh =
       [[1], [1, 2], [1, 2, 3]] ∧
     get_cars_content tA.refresh = [[1], [1, 2], [1, 2, 3]]) := by
  constructor
  · intro t n cfg hmem
    have hadd : t.add_pull n cfg =
        { t with
          member_sequence :=
            t.member_sequence.map
              fun m => if m.number = n then ⟨n, cfg⟩ else m } := by
      unfold Train.add_pull
      rw [if_pos hmem]
    have hs : seqNums (t.add_pull n cfg) = seqNums t := by
      rw [hadd]
      exact replaceConfig_nums n cfg t.member_sequence
    have hc : (t.add_pull n cfg).cars = t.cars := by
      rw [hadd]
    refine ⟨hs, by rw [hadd], hc, ?_⟩
    intro hw
    constructor
    · show (t.add_pull n cfg).refresh.cars.map carContent =
          t.refresh.cars.map carContent
      rw [refresh_congr (t.add_pull n cfg) t hc hs hw]
    · rw [refresh_waiting, refresh_waiting, hs, hw]
      have hlen : (t.add_pull n cfg).member_sequence.length =
          t.member_sequence.length := by
        have := congrArg List.length hs
        simpa [seqNums_length] using this
      rw [hlen]
  · exact ⟨by decide, by decide⟩

/-- C4 (witness): the general statement applied to re-adding pull 1 of the
scenario-A train with a changed priority. -/
theorem c4_add_pull_idempotent_witness :
    get_cars_content (tA.add_pull 1 (get_config "five" 10)).refresh =
      get_cars_content tA.refresh :=
  ((c4_add_pull_idempotent.1 tA 1 (get_config "five" 10)
    (by decide)).2.2.2 (by decide)).1

theorem insertByPriority_spec (m : TrainMember) (ms : List TrainMember) :
    ∃ p, p ≤ ms.length ∧
      insertByPriority m ms = ms.take p ++ m :: ms.drop p ∧
      (∀ x ∈ ms.take p,
        ¬ (x.config.effective_priority < m.config.effective_priority)) ∧
      (∀ x, (ms.drop p).head? = some x →
        x.config.effective_priority < m.config.effective_priority) := by
  induction ms with
  | nil =>
    refine ⟨0, by simp, by simp [insertByPriority], by simp, ?_⟩
    intro x hx
    simp at hx
  | cons y ys ih =>
    by_cases h : y.config.effective_priority < m.config.effective_priority
    · refine ⟨0, by simp, by simp [insertByPriority, h], by simp, ?_⟩
      intro x hx
      simp at hx
      rw [← hx]
      exact h
    · obtain ⟨p, hp, heq, hge, hlt⟩ := ih
      refine ⟨p + 1, by simpa using hp, ?_, ?_, ?_⟩
      · simp only [insertByPriority, if_neg h, heq, List.take_succ_cons,
          List.drop_succ_cons, List.cons_append]
      · intro x hx
        rw [List.take_succ_cons] at hx
        rcases List.mem_cons.mp hx with rfl | hx2
        · exact h
        · exact hge x hx2
      · intro x hx
        rw [List.drop_succ_cons] at hx
        exact hlt x hx

/-- C5: `add_pull` of a pull number not yet present inserts it by the
stable priority sort — immediately before the first existing entry whose
effective priority is strictly lower, after all entries of equal or higher
effective priority, ties keeping arrival order; concretely, adding the
higher-rule-priority pull 5 to waiting `[3, 4]` reorders the waiting list
to `[5, 3, 4]`, and the subsequent equal-priority adds 6-9 append at the
end. -/
theorem c5_add_pull_priority_insertion :
    (∀ t n cfg, n ∉ seqNums t →
       ∃ p, p ≤ t.member_sequence.length ∧
         (t.add_pull n cfg).member_sequence =
           t.member_sequence.take p ++ ⟨n, cfg⟩ ::
             t.member_sequence.drop p ∧
         (∀ x ∈ t.member_sequence.take p,
           ¬ (x.config.effective_priority < cfg.effective_priority)) ∧
         (∀ x, (t.member_sequence.drop p).head? = some x →
           x.config.effective_priority < cfg.effective_priority)) ∧
    (get_cars_content tF1 = [[1], [1, 2]] ∧
     get_waiting_content tF1 = [5, 3, 4] ∧
     get_waiting_content tF2 = [5, 3, 4, 6, 7, 8, 9]) := by
  constructor
  · intro t n cfg hmem
    have hadd : (t.add_pull n cfg).member_sequence =
        insertByPriority ⟨n, cfg⟩ t.member_sequence := by
      unfold Train.add_pull
      rw [if_neg hmem]
    rw [hadd]
    exact insertByPriority_spec ⟨n, cfg⟩ t.member_sequence
  · exact ⟨by decide, by decide, by decide⟩

/-- C5 (witness): the general statement applied to adding pull 5 to the
multiple-queue scenario train whose waiting list is `[3, 4]`. -/
theorem c5_add_pull_priority_insertion_witness :
    5 ∉ seqNums tF0 ∧
      ∃ p, p ≤ tF0.member_sequence.length ∧
        (tF0.add_pull 5 cfg2).member_sequence =
          tF0.member_sequence.take p ++ ⟨5, cfg2⟩ ::
            tF0.member_sequence.drop p ∧
        (∀ x ∈ tF0.member_sequence.take p,
          ¬ (x.config.effective_priority < cfg2.effective_priority)) ∧
        (∀ x, (tF0.member_sequence.drop p).head? = some x →
          x.config.effective_priority < cfg2.effective_priority) :=
  ⟨by decide, c5_add_pull_priority_insertion.1 tF0 5 cfg2 (by decide)⟩

/-- C6: `refresh` recomputes the admission width from the queue rule of the
current head member, so the car count is always `min` of the head's width
and the sequence length; concretely, after the width-2 queue pulls 1 and 5
drain and pull 3 of the width-5 queue becomes head, the cars rebuild to
`[3],[3,4],[3,4,6],[3,4,6,7],[3,4,6,7,8]` with waiting `[9]`. -/
theorem c6_refresh_recomputes_width :
    (∀ (t : Train) (m : TrainMember) (rest : List TrainMember),
       t.member_sequence = m :: rest →
       t.refresh.cars.length =
         min m.config.queue_config.speculative_checks
           t.member_sequence.length) ∧
    (get_cars_content tF4 =
       [[3], [3, 4], [3, 4, 6], [3, 4, 6, 7], [3, 4, 6, 7, 8]] ∧
     get_waiting_content tF4 = [9]) := by
  constructor
  · intro t m rest hseq
    have hw : trainWidth t = m.config.queue_config.speculative_checks := by
      unfold trainWidth
      rw [hseq]
    rw [refresh_cars_length, hw]
  · exact ⟨by decide, by decide⟩

/-- C6 (witness): the general statement applied to the drained
multiple-queue train whose head is pull 3 of the width-5 queue. -/
theorem c6_refresh_recomputes_width_witness :
    ((tF3.remove_pull 1 false).remove_pull 5 false).refresh.cars.length =
      min (TrainMember.mk 3 cfg5).config.queue_config.speculative_checks
        ((tF3.remove_pull 1 false).remove_pull 5 false).member_sequence.length :=
  c6_refresh_recomputes_width.1 ((tF3.remove_pull 1 false).remove_pull 5 false)
    ⟨3, cfg5⟩ [⟨4, cfg5⟩, ⟨6, cfg5⟩, ⟨7, cfg5⟩, ⟨8, cfg5⟩, ⟨9, cfg5⟩]
    (by decide)

theorem deserializeMember_serializeMember (m : TrainMember) :
    deserializeMember (serializeMember m) = m := rfl

theorem deserializeCar_serializeCar (c : TrainCar) :
    deserializeCar (serializeCar c) = c := rfl

theorem train_load_save (store : TrainStore) (t : Train) :
    Train.load (t.save store) t.repository_id t.branch = t := by
  have hfind :
      storeFind (t.save store) (train_store_key t.repository_id t.branch) =
        some (serializeTrain t) := by
    simp [Train.save, storePut, storeFind, List.lookup]
  unfold Train.load
  rw [hfind]
  cases t with
  | mk repo branch ms cs =>
    simp [serializeTrain, List.map_map, Function.comp_def,
      deserializeMember_serializeMember, deserializeCar_serializeCar]

/-- C7: saving a train and loading a fresh train for the same repository
and branch reproduces identical cars content and identical waiting content
(the save/load pair round-trips the full train state). -/
theorem c7_save_load_round_trip (store : TrainStore) (t : Train) :
    get_cars_content (Train.load (t.save store) t.repository_id t.branch) =
        get_cars_content t ∧
      get_waiting_content
          (Train.load (t.save store) t.repository_id t.branch) =
        get_waiting_content t := by
  rw [train_load_save]
  exact ⟨rfl, rfl⟩

/-- C8: calling `remove_pull` with a pull number absent from the member
sequence is a no-op — the member sequence, cars and waiting list are all
unchanged; concretely, removing pull 2 a second time after
`test_train_add_remove_pull_idempotant`'s first removal changes nothing. -/
theorem c8_remove_pull_absent_noop :
    (∀ t n merged, n ∉ seqNums t → t.remove_pull n merged = t) ∧
    ((tA.remove_pull 2 false).refresh.remove_pull 2 false =
      (tA.remove_pull 2 false).refresh) := by
  constructor
  · intro t n merged hmem
    unfold Train.remove_pull
    rw [if_neg hmem]
  · exact by decide

/-- C8 (witness): the general statement applied to the second removal of
pull 2 from the scenario train. -/
theorem c8_remove_pull_absent_noop_witness :
    2 ∉ seqNums (tA.remove_pull 2 false).refresh ∧
      (tA.remove_pull 2 false).refresh.remove_pull 2 false =
        (tA.remove_pull 2 false).refresh :=
  ⟨by decide,
   c8_remove_pull_absent_noop.1 (tA.remove_pull 2 false).refresh 2 false
     (by decide)⟩

/-- C9: the context layer's attribute lookup is a total tagged function —
every name among the recognised pull-request attributes returns a
consolidated value, and every other name raises
`PullRequestAttributeError` carrying exactly that name. -/
theorem c9_attribute_lookup_total (c : Context) (name : String) :
    (name ∈ recognisedAttributes →
      ∃ v, c.get_consolidated_data name = Except.ok v) ∧
    (name ∉ recognisedAttributes →
      c.get_consolidated_data name = Except.error ⟨name⟩) := by
  constructor
  · intro hmem
    simp only [recognisedAttributes, List.mem_cons, List.not_mem_nil,
      or_false] at hmem
    rcases hmem with rfl | rfl | rfl | rfl | rfl | rfl | rfl | rfl | rfl |
      rfl | rfl | rfl | rfl | rfl | rfl | rfl | rfl | rfl | rfl | rfl |
      rfl | rfl | rfl | rfl | rfl | rfl | rfl <;>
      exact ⟨_, rfl⟩
  · intro hmem
    simp only [recognisedAttributes, List.mem_cons, List.not_mem_nil,
      or_false] at hmem
    push_neg at hmem
    obtain ⟨h1, h2, h3, h4, h5, h6, h7, h8, h9, h10, h11, h12, h13, h14,
      h15, h16, h17, h18, h19, h20, h21, h22, h23, h24, h25, h26, h27⟩ :=
      hmem
    unfold Context.get_consolidated_data
    rw [if_neg h1, if_neg h2, if_neg h3, if_neg h4, if_neg h5, if_neg h6,
      if_neg h7, if_neg h8, if_neg h9, if_neg h10, if_neg h11, if_neg h12,
      if_neg h13, if_neg h14, if_neg h15, if_neg h16, if_neg h17,
      if_neg h18, if_neg h19, if_neg h20, if_neg h21,
      if_neg (not_or.mpr ⟨h22, h23⟩), if_neg (not_or.mpr ⟨h24, h25⟩),
      if_neg (not_or.mpr ⟨h26, h27⟩)]

/-- C9 (witness): the lookup applied to an unrecognised attribute name on a
concrete pull-request context. -/
theorem c9_attribute_lookup_total_witness :
    "octopus" ∉ recognisedAttributes ∧
      Context.get_consolidated_data
          ⟨⟨[], [], [], [], false, ⟨1, "octocat"⟩, none, false, "open",
            none, 1, "clean", ⟨"master"⟩, ⟨"feature"⟩, false, "title",
            "body"⟩, [], [], [], []⟩ "octopus" =
        Except.error ⟨"octopus"⟩ :=
  ⟨by decide,
   (c9_attribute_lookup_total
     ⟨⟨[], [], [], [], false, ⟨1, "octocat"⟩, none, false, "open", none, 1,
       "clean", ⟨"master"⟩, ⟨"feature"⟩, false, "title", "body"⟩, [], [],
       [], []⟩ "octopus").2 (by decide)⟩

/-- C10: `Repository.has_write_permission` returns true exactly when the
user's permission string — served from the one-hour redis cache keyed by
owner, repository and user id, or fetched from the platform on a miss — is
one of "admin", "maintain" or "write"; after the call the permission is
cached under that key, and on a miss the key's expiration is set to one
hour. -/
theorem c10_has_write_permission (r : Repository) (redis : RedisState)
    (platform : String → String) (user : GitHubAccount) :
    ((r.has_write_permission redis platform user).1 = true ↔
      (redis.hget r.users_permission_cache_key user.id).getD
          (platform user.login) ∈ writePermissions) ∧
    ((r.has_write_permission redis platform user).2.hget
        r.users_permission_cache_key user.id =
      some ((redis.hget r.users_permission_cache_key user.id).getD
        (platform user.login))) ∧
    (redis.hget r.users_permission_cache_key user.id = none →
      List.lookup r.users_permission_cache_key
          (r.has_write_permission redis platform user).2.ttls =
        some USERS_PERMISSION_EXPIRATION) := by
  unfold Repository.has_write_permission
  cases hh : redis.hget r.users_permission_cache_key user.id with
  | some p =>
    refine ⟨?_, ?_, ?_⟩
    · simp [hh, List.elem_iff]
    · simp [hh]
    · intro hnone
      exact absurd hnone (by simp)
  | none =>
    refine ⟨?_, ?_, ?_⟩
    · simp [hh, List.elem_iff]
    · simp only [hh]
      simp [RedisState.hget, RedisState.hset, RedisState.expire,
        List.lookup]
    · intro _
      simp [hh, RedisState.hset, RedisState.expire, List.lookup]

/-- C10 (witness): a concrete cache-miss call where the platform reports
"write": the call returns true, caches "write" under the owner/repo/user
key and sets the one-hour expiration. -/
theorem c10_has_write_permission_witness :
    RedisState.hget ⟨[], []⟩
        (Repository.users_permission_cache_key ⟨7, 9⟩) 42 = none ∧
      List.lookup (Repository.users_permission_cache_key ⟨7, 9⟩)
          ((Repository.has_write_permission ⟨7, 9⟩ ⟨[], []⟩
            (fun _ => "write") ⟨42, "dev"⟩).2.ttls) =
        some USERS_PERMISSION_EXPIRATION :=
  ⟨by decide,
   (c10_has_write_permission ⟨7, 9⟩ ⟨[], []⟩ (fun _ => "write")
     ⟨42, "dev"⟩).2.2 (by decide)⟩
